import Mathlib

namespace Sub2api

/-!
Shallow embedding of the sub2api compaction/streaming core
(`backend/internal/service/openai_compaction.go`, `ops_stream_fault.go`,
`stream_read_tracker.go`) and proofs about the spec claims.

Go strings are immutable byte sequences; we model a Go `string` (and `[]byte`)
as `List Nat` with every element `< 256`.  Conversions `[]byte(s)` and
`string(b)` are then identities, exactly as at the Go byte level.
-/

/-- Model of a Go string / byte slice: the list of its bytes. -/
abbrev GoStr := List Nat

/-- Bytes of an ASCII string literal (all literals in this development are
ASCII, so the UTF-8 bytes coincide with the code points). -/
def ascii (s : String) : GoStr := s.data.map (fun c => c.toNat)

/-- ASCII whitespace test used by `strings.TrimSpace` on ASCII bytes
(space, tab, newline, vertical tab, form feed, carriage return).
Go additionally trims some non-ASCII Unicode spaces, which no claim relies on. -/
def isGoSpace (b : Nat) : Bool := b == 32 || (9 ≤ b && b ≤ 13)

/-- Model of Go `strings.TrimSpace` on byte strings. -/
def goTrimSpace (s : GoStr) : GoStr :=
  ((s.dropWhile isGoSpace).reverse.dropWhile isGoSpace).reverse

/-- Model of Go `strings.ToLower` restricted to ASCII bytes. -/
def goToLower (s : GoStr) : GoStr :=
  s.map (fun b => if 65 ≤ b && b ≤ 90 then b + 32 else b)

/-! ### Base64 (Go `encoding/base64.StdEncoding`: standard alphabet, padded) -/

/-- Standard base64 alphabet: sextet value to ASCII byte. -/
def b64Char (n : Nat) : Nat :=
  if n < 26 then 65 + n
  else if n < 52 then 97 + (n - 26)
  else if n < 62 then 48 + (n - 52)
  else if n = 62 then 43
  else 47

/-- Inverse alphabet lookup: ASCII byte to sextet value, `none` outside the alphabet. -/
def b64Index (c : Nat) : Option Nat :=
  if 65 ≤ c ∧ c ≤ 90 then some (c - 65)
  else if 97 ≤ c ∧ c ≤ 122 then some (c - 97 + 26)
  else if 48 ≤ c ∧ c ≤ 57 then some (c - 48 + 52)
  else if c = 43 then some 62
  else if c = 47 then some 63
  else none

/-- Model of `base64.StdEncoding.EncodeToString`. -/
def base64Encode : List Nat → GoStr
  | [] => []
  | [b0] => [b64Char (b0 / 4), b64Char (b0 % 4 * 16), 61, 61]
  | [b0, b1] => [b64Char (b0 / 4), b64Char (b0 % 4 * 16 + b1 / 16), b64Char (b1 % 16 * 4), 61]
  | b0 :: b1 :: b2 :: rest =>
      b64Char (b0 / 4) :: b64Char (b0 % 4 * 16 + b1 / 16) ::
      b64Char (b1 % 16 * 4 + b2 / 64) :: b64Char (b2 % 64) :: base64Encode rest

/-- Model of `base64.StdEncoding.DecodeString`: four-byte quanta, `=` padding
only in the final quantum, `none` on any malformed input.  (Go also skips
embedded `\r`/`\n`, which never occur in tokens this code produces.) -/
def base64Decode : GoStr → Option (List Nat)
  | [] => some []
  | c0 :: c1 :: c2 :: c3 :: rest =>
      (b64Index c0).bind (fun s0 =>
      (b64Index c1).bind (fun s1 =>
        if c2 = 61 then
          if c3 = 61 ∧ rest = [] then some [s0 * 4 + s1 / 16] else none
        else
          (b64Index c2).bind (fun s2 =>
            if c3 = 61 then
              if rest = [] then some [s0 * 4 + s1 / 16, s1 % 16 * 16 + s2 / 4] else none
            else
              (b64Index c3).bind (fun s3 =>
                (base64Decode rest).map
                  (fun tl => (s0 * 4 + s1 / 16) :: (s1 % 16 * 16 + s2 / 4) ::
                             (s2 % 4 * 64 + s3) :: tl)))))
  | _ => none

/-- Model of Go `hex.DecodeString`: pairs of hex digits, both cases accepted. -/
def hexDigit (c : Nat) : Option Nat :=
  if 48 ≤ c ∧ c ≤ 57 then some (c - 48)
  else if 97 ≤ c ∧ c ≤ 102 then some (c - 97 + 10)
  else if 65 ≤ c ∧ c ≤ 70 then some (c - 65 + 10)
  else none

/-- Model of Go `hex.DecodeString` on a full string. -/
def hexDecode : GoStr → Option (List Nat)
  | [] => some []
  | c0 :: c1 :: rest =>
      match hexDigit c0, hexDigit c1 with
      | some h, some l => (hexDecode rest).map (fun tl => (h * 16 + l) :: tl)
      | _, _ => none
  | _ => none

/-! ### Base64 round-trip lemmas -/

/-! ### SHA-256 (Go `crypto/sha256`), over byte lists, words as `Nat % 2^32` -/

/-- Right rotation of a 32-bit word. -/
def rotr32 (n x : Nat) : Nat := (x / 2 ^ n + x % 2 ^ n * 2 ^ (32 - n)) % 2 ^ 32

/-- The `Ch` function of SHA-256 (`(x AND y) XOR (NOT x AND z)`). -/
def sha256Ch (x y z : Nat) : Nat := (x &&& y) ^^^ ((x ^^^ 0xffffffff) &&& z)

/-- The `Maj` function of SHA-256. -/
def sha256Maj (x y z : Nat) : Nat := (x &&& y) ^^^ (x &&& z) ^^^ (y &&& z)

/-- Big sigma-0 of SHA-256. -/
def bigSigma0 (x : Nat) : Nat := rotr32 2 x ^^^ rotr32 13 x ^^^ rotr32 22 x

/-- Big sigma-1 of SHA-256. -/
def bigSigma1 (x : Nat) : Nat := rotr32 6 x ^^^ rotr32 11 x ^^^ rotr32 25 x

/-- Small sigma-0 of SHA-256. -/
def smallSigma0 (x : Nat) : Nat := rotr32 7 x ^^^ rotr32 18 x ^^^ x / 2 ^ 3

/-- Small sigma-1 of SHA-256. -/
def smallSigma1 (x : Nat) : Nat := rotr32 17 x ^^^ rotr32 19 x ^^^ x / 2 ^ 10

/-- The 64 SHA-256 round constants. -/
def sha256K : List Nat :=
  [1116352408, 1899447441, 3049323471, 3921009573, 961987163,
   1508970993, 2453635748, 2870763221, 3624381080, 310598401,
   607225278, 1426881987, 1925078388, 2162078206, 2614888103,
   3248222580, 3835390401, 4022224774, 264347078, 604807628,
   770255983, 1249150122, 1555081692, 1996064986, 2554220882,
   2821834349, 2952996808, 3210313671, 3336571891, 3584528711,
   113926993, 338241895, 666307205, 773529912, 1294757372,
   1396182291, 1695183700, 1986661051, 2177026350, 2456956037,
   2730485921, 2820302411, 3259730800, 3345764771, 3516065817,
   3600352804, 4094571909, 275423344, 430227734, 506948616,
   659060556, 883997877, 958139571, 1322822218, 1537002063,
   1747873779, 1955562222, 2024104815, 2227730452, 2361852424,
   2428436474, 2756734187, 3204031479, 3329325298]

/-- The SHA-256 initial hash words. -/
def sha256Init : List Nat :=
  [1779033703, 3144134277, 1013904242, 2773480762,
   1359893119, 2600822924, 528734635, 1541459225]

/-- Big-endian byte serialization of a value into `k` bytes. -/
def beBytes : Nat → Nat → List Nat
  | 0, _ => []
  | k + 1, v => beBytes k (v / 256) ++ [v % 256]

/-- SHA-256 padding: append `0x80`, zeros to 56 mod 64 bytes, then the
64-bit big-endian bit length. -/
def sha256Pad (msg : List Nat) : List Nat :=
  msg ++ [0x80] ++ List.replicate ((119 - msg.length % 64) % 64) 0
      ++ beBytes 8 (msg.length * 8)

/-- Group bytes into big-endian 32-bit words. -/
def bytesToWords : List Nat → List Nat
  | b0 :: b1 :: b2 :: b3 :: rest =>
      (((b0 * 256 + b1) * 256 + b2) * 256 + b3) :: bytesToWords rest
  | _ => []

/-- Split a word list into 16-word blocks. -/
def words16 : List Nat → List (List Nat)
  | w0 :: w1 :: w2 :: w3 :: w4 :: w5 :: w6 :: w7 ::
    w8 :: w9 :: w10 :: w11 :: w12 :: w13 :: w14 :: w15 :: rest =>
      [w0, w1, w2, w3, w4, w5, w6, w7, w8, w9, w10, w11, w12, w13, w14, w15]
        :: words16 rest
  | _ => []

/-- Extend the 16 message-schedule words to 64 (the `k` counter is the number
of words still to append). -/
def sha256Extend : Nat → Array Nat → Array Nat
  | 0, w => w
  | k + 1, w =>
      let i := w.size
      let v := (smallSigma1 (w.getD (i - 2) 0) + w.getD (i - 7) 0 +
                smallSigma0 (w.getD (i - 15) 0) + w.getD (i - 16) 0) % 2 ^ 32
      sha256Extend k (w.push v)

/-- One SHA-256 compression round applied to the 8-word working state;
`kw` is the round constant already added to the schedule word. -/
def sha256Round (st : List Nat) (kw : Nat) : List Nat :=
  match st with
  | [a, b, c, d, e, f, g, hh] =>
      let t1 := (hh + bigSigma1 e + sha256Ch e f g + kw) % 2 ^ 32
      let t2 := (bigSigma0 a + sha256Maj a b c) % 2 ^ 32
      [(t1 + t2) % 2 ^ 32, a, b, c, (d + t1) % 2 ^ 32, e, f, g]
  | other => other

/-- Compress one 16-word block into the running hash. -/
def sha256Block (h : List Nat) (block : List Nat) : List Nat :=
  let ws := (sha256Extend 48 block.toArray).toList
  let kws := List.zipWith (fun k w => (k + w) % 2 ^ 32) sha256K ws
  let st := kws.foldl sha256Round h
  List.zipWith (fun x y => (x + y) % 2 ^ 32) h st

/-- Model of Go `sha256.Sum256` over a byte string. -/
def sha256 (msg : List Nat) : List Nat :=
  let blocks := words16 (bytesToWords (sha256Pad msg))
  let hh := blocks.foldl sha256Block sha256Init
  hh.foldr (fun w acc => beBytes 4 w ++ acc) []

/-! ### Compaction key derivation (`compactionKey`, `parse32ByteKey`) -/

/-- Model of `parse32ByteKey`: trim; for 64 characters first try hex; then try
standard base64; accept only exact 32-byte results. -/
def parse32ByteKey (v : GoStr) : Option (List Nat) :=
  let s := goTrimSpace v
  if s = [] then none
  else
    let viaHex : Option (List Nat) :=
      if s.length = 64 then
        match hexDecode s with
        | some b => if b.length = 32 then some b else none
        | none => none
      else none
    match viaHex with
    | some b => some b
    | none =>
        match base64Decode s with
        | some b => if b.length = 32 then some b else none
        | none => none

/-- Model of `compactionKey`.  The process environment variable
`SUB2API_COMPACTION_KEY`, the configured `totp.encryption_key` and the
configured `jwt.secret` are inputs; `now` is the RFC3339Nano rendering of
`time.Now().UTC()` at this call (the code re-reads the clock on every call). -/
def compactionKey (env totpKey jwtSecret now : GoStr) : Except GoStr (List Nat) :=
  let v := goTrimSpace env
  if v ≠ [] then
    match parse32ByteKey v with
    | some key => .ok key
    | none => .error (ascii "invalid SUB2API_COMPACTION_KEY (expect 32-byte hex/base64)")
  else
    let t := goTrimSpace totpKey
    if t ≠ [] then
      match parse32ByteKey t with
      | some key => .ok key
      | none => .error (ascii "invalid totp.encryption_key (expect 32-byte hex/base64)")
    else
      let j := goTrimSpace jwtSecret
      if j ≠ [] then .ok (sha256 j)
      else .ok (sha256 (ascii "sub2api:compaction:ephemeral:" ++ now))

/-- A key source other than the per-call ephemeral fallback is configured. -/
def keyConfigured (env totpKey jwtSecret : GoStr) : Prop :=
  goTrimSpace env ≠ [] ∨ goTrimSpace totpKey ≠ [] ∨ goTrimSpace jwtSecret ≠ []

/-! ### Compaction codec (`encryptCompactionSummary`, `decryptCompactionSummary`)

The AEAD (Go `crypto/aes` + `cipher.NewGCM`) and the nonce randomness
(`crypto/rand`) are external library collaborators; the codec is parameterized
over an AEAD scheme and the drawn nonce. -/

/-- An AEAD scheme: nonce size, seal, and open (all over byte lists).
`aeadOpen k n c = some p` means authentication succeeded with plaintext `p`. -/
structure AEADScheme where
  nonceSize : Nat
  sealWith : List Nat → List Nat → List Nat → List Nat
  aeadOpen : List Nat → List Nat → List Nat → Option (List Nat)

/-- The AEAD laws the codec relies on: opening what was sealed succeeds and
returns the plaintext, and sealing genuine bytes yields genuine bytes. -/
structure LawfulAEAD (A : AEADScheme) : Prop where
  open_seal : ∀ k n p, A.aeadOpen k n (A.sealWith k n p) = some p
  seal_bytes : ∀ k n p, (∀ b ∈ p, b < 256) → ∀ b ∈ A.sealWith k n p, b < 256

/-- Model of `encryptCompactionSummary`: derive the key, seal the trimmed
summary under a fresh nonce, emit base64 of nonce ++ ciphertext. -/
def encryptCompactionSummary (A : AEADScheme) (env totpKey jwtSecret now : GoStr)
    (nonce : List Nat) (summary : GoStr) : Except GoStr GoStr :=
  match compactionKey env totpKey jwtSecret now with
  | .error e => .error e
  | .ok key => .ok (base64Encode (nonce ++ A.sealWith key nonce (goTrimSpace summary)))

/-- Model of `decryptCompactionSummary`: derive the key, trim and base64-decode
the token, split nonce/ciphertext, open the AEAD. -/
def decryptCompactionSummary (A : AEADScheme) (env totpKey jwtSecret now : GoStr)
    (encrypted : GoStr) : Except GoStr GoStr :=
  match compactionKey env totpKey jwtSecret now with
  | .error e => .error e
  | .ok key =>
      match base64Decode (goTrimSpace encrypted) with
      | none => .error (ascii "illegal base64 data")
      | some raw =>
          if raw.length < A.nonceSize then .error (ascii "invalid encrypted_content")
          else
            match A.aeadOpen key (raw.take A.nonceSize) (raw.drop A.nonceSize) with
            | none => .error (ascii "cipher: message authentication failed")
            | some plaintext => .ok plaintext

/-! ### JSON documents (Go `map[string]any` / `[]any` after `json.Unmarshal`) -/

/-- Model of a decoded JSON value as Go holds it (`any`).  Numbers are modeled
as integers; no claim depends on float semantics. -/
inductive JSON where
  | null
  | bool (b : Bool)
  | num (n : Int)
  | str (s : GoStr)
  | arr (items : List JSON)
  | obj (fields : List (GoStr × JSON))

/-- Association-list model of a Go `map[string]any` (keys unique after JSON
decoding; iteration order is never observed by the modeled code). -/
abbrev GoMap := List (GoStr × JSON)

/-- Map lookup, `none` when the key is absent. -/
def mapGet (m : GoMap) (k : GoStr) : Option JSON :=
  match m with
  | [] => none
  | (k2, v) :: rest => if k2 = k then some v else mapGet rest k

/-- Map assignment `m[k] = v`: replace the binding in place, or append. -/
def mapSet (m : GoMap) (k : GoStr) (v : JSON) : GoMap :=
  match m with
  | [] => [(k, v)]
  | (k2, v2) :: rest => if k2 = k then (k2, v) :: rest else (k2, v2) :: mapSet rest k v

/-- Model of a Go two-value string type assertion `s, _ := v.(string)`:
yields the empty string when absent or not a string. -/
def asString (v : Option JSON) : GoStr :=
  match v with
  | some (.str s) => s
  | _ => []

/-! ### `expandCompactionIntoInstructions` -/

/-- The item-loop of `expandCompactionIntoInstructions`: walk the input items,
pass non-compaction items through, decrypt compaction payloads, collect
non-empty trimmed summaries in encounter order, and drop compaction items.
The service decryptor (`decryptCompactionSummary` on the receiver) is passed
in as `decrypt`.  Any per-item failure aborts with the error. -/
def expandLoop (decrypt : GoStr → Except GoStr GoStr) :
    List JSON → Except GoStr (List GoStr × List JSON)
  | [] => .ok ([], [])
  | item :: rest =>
      match item with
      | .obj m =>
          let typ := asString (mapGet m (ascii "type"))
          if typ = ascii "compaction" ∨ typ = ascii "compaction_summary" then
            let enc := goTrimSpace (asString (mapGet m (ascii "encrypted_content")))
            if enc = [] then .error (ascii "compaction item missing encrypted_content")
            else
              match decrypt enc with
              | .error e => .error (ascii "invalid compaction encrypted_content: " ++ e)
              | .ok summary =>
                  let s := goTrimSpace summary
                  (expandLoop decrypt rest).map
                    (fun p => (if s = [] then p.1 else s :: p.1, p.2))
          else
            (expandLoop decrypt rest).map (fun p => (p.1, item :: p.2))
      | other =>
          (expandLoop decrypt rest).map (fun p => (p.1, other :: p.2))

/-- The `instructions` block header the code builds. -/
def compactionBlockHeader : GoStr :=
  ascii "Conversation history summary (from /v1/responses/compact):\n"

/-- Model of `expandCompactionIntoInstructions`.  Go mutates `reqBody` in
place and returns `(changed, error)`; here the final document is returned
alongside: the result is `(document after the call, changed, error)`.  All
mutations in the source happen after the item loop has fully succeeded. -/
def expandCompactionIntoInstructions (decrypt : GoStr → Except GoStr GoStr)
    (reqBody : GoMap) : GoMap × Bool × Option GoStr :=
  match mapGet reqBody (ascii "input") with
  | none => (reqBody, false, none)
  | some .null => (reqBody, false, none)
  | some (.arr input) =>
      if input.isEmpty then (reqBody, false, none)
      else
        match expandLoop decrypt input with
        | .error e => (reqBody, false, some e)
        | .ok (summaries, newInput) =>
            if summaries = [] then (reqBody, false, none)
            else
              let withInput := mapSet reqBody (ascii "input") (.arr newInput)
              let block := compactionBlockHeader ++
                (ascii "\n\n").intercalate summaries
              let existing := goTrimSpace (asString (mapGet withInput (ascii "instructions")))
              if existing = [] then
                (mapSet withInput (ascii "instructions") (.str block), true, none)
              else
                (mapSet withInput (ascii "instructions")
                   (.str (existing ++ ascii "\n\n" ++ block)), true, none)
  | some _ => (reqBody, false, none)

/-! ### `extractFirstUserText` -/

/-- Inner content-part scan of `extractFirstUserText`: first part of type
`input_text`/`text`/`output_text` with non-whitespace text. -/
def firstUserFromParts : List JSON → Option GoStr
  | [] => none
  | part :: rest =>
      match part with
      | .obj pm =>
          let pt := asString (mapGet pm (ascii "type"))
          if pt = ascii "input_text" ∨ pt = ascii "text" ∨ pt = ascii "output_text" then
            let text := asString (mapGet pm (ascii "text"))
            if goTrimSpace text ≠ [] then some text else firstUserFromParts rest
          else firstUserFromParts rest
      | _ => firstUserFromParts rest

/-- Item scan of `extractFirstUserText`: first user message; a string content
is returned outright, an array content is scanned for a text part. -/
def firstUserLoop : List JSON → GoStr
  | [] => []
  | item :: rest =>
      match item with
      | .obj m =>
          let typ := asString (mapGet m (ascii "type"))
          if typ ≠ [] ∧ typ ≠ ascii "message" then firstUserLoop rest
          else if asString (mapGet m (ascii "role")) ≠ ascii "user" then firstUserLoop rest
          else
            match mapGet m (ascii "content") with
            | some (.str v) => v
            | some (.arr parts) =>
                match firstUserFromParts parts with
                | some t => t
                | none => firstUserLoop rest
            | _ => firstUserLoop rest
      | _ => firstUserLoop rest

/-- Model of `extractFirstUserText` (argument is `reqBody["input"]`). -/
def extractFirstUserText (input : Option JSON) : GoStr :=
  match input with
  | some (.arr items) => firstUserLoop items
  | _ => []

/-! ### `extractAssistantOutputText`

Go decodes the response body into a struct via `encoding/json`; mismatched
types abort decoding with an error, which the caller turns into `""`. -/

/-- Decoded form of one content part of the upstream response. -/
structure ContentPart where
  ptype : GoStr
  text : GoStr

/-- Decoded form of one output item of the upstream response. -/
structure OutputItem where
  itype : GoStr
  role : GoStr
  content : List ContentPart

/-- Decode a JSON value into a Go `string` struct field: missing and `null`
leave the zero value, a string is taken, anything else is a decode error. -/
def decodeStringField (f : GoMap) (k : String) : Option GoStr :=
  match mapGet f (ascii k) with
  | none => some []
  | some .null => some []
  | some (.str s) => some s
  | some _ => none

/-- Decode one content part. -/
def decodeContentPart : JSON → Option ContentPart
  | .obj f =>
      match decodeStringField f "type", decodeStringField f "text" with
      | some t, some x => some ⟨t, x⟩
      | _, _ => none
  | .null => some ⟨[], []⟩
  | _ => none

/-- Decode a list of content parts. -/
def traverseParts : List JSON → Option (List ContentPart)
  | [] => some []
  | x :: xs =>
      match decodeContentPart x with
      | none => none
      | some p => (traverseParts xs).map (fun ps => p :: ps)

/-- Decode the `content` field of an output item. -/
def decodeContentList : JSON → Option (List ContentPart)
  | .null => some []
  | .arr xs => traverseParts xs
  | _ => none

/-- Decode one output item. -/
def decodeOutputItem : JSON → Option OutputItem
  | .obj f =>
      match decodeStringField f "type", decodeStringField f "role" with
      | some t, some r =>
          match mapGet f (ascii "content") with
          | none => some ⟨t, r, []⟩
          | some c => (decodeContentList c).map (fun ps => ⟨t, r, ps⟩)
      | _, _ => none
  | .null => some ⟨[], [], []⟩
  | _ => none

/-- Decode a list of output items. -/
def traverseItems : List JSON → Option (List OutputItem)
  | [] => some []
  | x :: xs =>
      match decodeOutputItem x with
      | none => none
      | some it => (traverseItems xs).map (fun its => it :: its)

/-- Decode the anonymous response struct of `extractAssistantOutputText`. -/
def decodeOutputResp : JSON → Option (List OutputItem)
  | .null => some []
  | .obj f =>
      match mapGet f (ascii "output") with
      | none => some []
      | some .null => some []
      | some (.arr xs) => traverseItems xs
      | some _ => none
  | _ => none

/-- First `output_text` part with non-whitespace text within one item. -/
def partOutputText : List ContentPart → Option GoStr
  | [] => none
  | p :: rest =>
      if p.ptype = ascii "output_text" ∧ goTrimSpace p.text ≠ [] then some p.text
      else partOutputText rest

/-- First assistant message carrying a non-whitespace `output_text` part. -/
def assistantText : List OutputItem → GoStr
  | [] => []
  | it :: rest =>
      if it.itype = ascii "message" ∧ it.role = ascii "assistant" then
        match partOutputText it.content with
        | some t => t
        | none => assistantText rest
      else assistantText rest

/-- Model of `extractAssistantOutputText`; `raw = none` stands for a body
that is empty or fails to parse as JSON. -/
def extractAssistantOutputText (raw : Option JSON) : GoStr :=
  match raw with
  | none => []
  | some j =>
      match decodeOutputResp j with
      | none => []
      | some items => assistantText items

/-! ### The tail of `Compact`: pass-through probe, wrap, or gateway error -/

/-- Outcome of the part of `Compact` that runs after `forwardForCompactJSON`
succeeded. -/
inductive CompactOutcome where
  | passThrough
  | missingSummary
  | encryptFailed (e : GoStr)
  | wrapped (token firstUser summary : GoStr)

/-- The `objProbe` unmarshal of `Compact`: the decoding error is discarded, so
a non-object body or a non-string `object` field leaves the zero value `""`. -/
def probeObjectTag (raw : Option JSON) : GoStr :=
  match raw with
  | some (.obj f) =>
      match mapGet f (ascii "object") with
      | some (.str s) => s
      | _ => []
  | _ => []

/-- Model of `Compact` lines 76-137: given the parsed request `input` field
and the (parsed) upstream body, decide pass-through, the 502 contract
violation, the 500 encryption failure, or the wrapped compaction response.
The first component is the HTTP status `Compact` returns. -/
def compactFinish (encrypt : GoStr → Except GoStr GoStr) (reqInput : Option JSON)
    (raw : Option JSON) : Nat × CompactOutcome :=
  if goTrimSpace (probeObjectTag raw) = ascii "response.compaction" then
    (200, .passThrough)
  else
    let firstUserText := extractFirstUserText reqInput
    let summaryText := extractAssistantOutputText raw
    if goTrimSpace summaryText = [] then (502, .missingSummary)
    else
      match encrypt summaryText with
      | .error e => (500, .encryptFailed e)
      | .ok token => (200, .wrapped token firstUserText summaryText)

/-! ### Failover classification in `forwardForCompactJSON` -/

/-- Result of the response phase of `forwardForCompactJSON`: an
`UpstreamFailoverError` with status and captured body, the terminal
error-mapping path (`handleErrorResponse`, external), or success. -/
inductive ForwardOutcome where
  | failover (statusCode : Nat) (responseBody : List Nat)
  | terminal
  | success (body : List Nat)

/-- Model of `forwardForCompactJSON` lines 290-310: classify the upstream
status with the injected predicate; on failover capture the body through
`io.LimitReader(·, 2<<20)`. -/
def forwardUpstreamOutcome (shouldFailover : Nat → Bool) (status : Nat)
    (body : List Nat) : ForwardOutcome :=
  if status < 200 ∨ 300 ≤ status then
    if shouldFailover status then .failover status (body.take (2 <<< 20))
    else .terminal
  else .success body

/-! ### `SetOpsStreamFault` -/

/-- Model of the `OpsStreamFault` record. -/
structure OpsStreamFault where
  phase : GoStr
  ftype : GoStr
  statusCode : Int
  message : GoStr
  detail : GoStr
  owner : GoStr
  source : GoStr

/-- The normalization `SetOpsStreamFault` applies before storing. -/
def normalizeFault (f : OpsStreamFault) : OpsStreamFault :=
  let phase := goTrimSpace (goToLower f.phase)
  let ftype := goTrimSpace f.ftype
  let phase := if phase = [] then ascii "internal" else phase
  let ftype := if ftype = [] then ascii "stream_fault" else ftype
  let statusCode := if f.statusCode ≤ 0 then 499 else f.statusCode
  { phase := phase, ftype := ftype, statusCode := statusCode,
    message := goTrimSpace f.message, detail := goTrimSpace f.detail,
    owner := goTrimSpace (goToLower f.owner),
    source := goTrimSpace (goToLower f.source) }

/-- Model of `SetOpsStreamFault` acting on the per-request context slot under
`OpsStreamFaultKey` (`none` = no fault stored yet): first write wins. -/
def setOpsStreamFault (stored : Option OpsStreamFault) (fault : OpsStreamFault) :
    Option OpsStreamFault :=
  match stored with
  | some f => some f
  | none => some (normalizeFault fault)

/-! ### `upstreamReadTracker.Read` -/

/-- The two shared cells of the tracker; `none` models a nil pointer. -/
structure TrackerCells where
  lastReadAt : Option Int
  bytesRead : Option Int

/-- Model of `upstreamReadTracker.Read`: `res` is the `(n, err)` pair the
wrapped reader returned for this call, `now` the current clock reading.
Returns the pair unchanged together with the updated cells. -/
def trackerRead (res : Nat × Option GoStr) (now : Int) (cells : TrackerCells) :
    (Nat × Option GoStr) × TrackerCells :=
  if res.1 > 0 then
    (res,
     { lastReadAt := cells.lastReadAt.map (fun _ => now),
       bytesRead := cells.bytesRead.map (fun b => b + res.1) })
  else (res, cells)

/-! ### Auxiliary definitions used by theorem statements -/

deriving instance DecidableEq for Except

/-- A compaction item the expansion must reject: object-typed, tagged
`compaction`/`compaction_summary`, with empty trimmed `encrypted_content`
or a payload the decryptor rejects. -/
def badCompactionItem (decrypt : GoStr → Except GoStr GoStr) (item : JSON) : Prop :=
  ∃ f, item = .obj f ∧
    (asString (mapGet f (ascii "type")) = ascii "compaction" ∨
     asString (mapGet f (ascii "type")) = ascii "compaction_summary") ∧
    (goTrimSpace (asString (mapGet f (ascii "encrypted_content"))) = [] ∨
     ∃ e, decrypt (goTrimSpace (asString (mapGet f (ascii "encrypted_content")))) = .error e)

/-- Whether an input item is an object tagged as a compaction item. -/
def isCompactionObjB (item : JSON) : Bool :=
  match item with
  | .obj f =>
      decide (asString (mapGet f (ascii "type")) = ascii "compaction" ∨
              asString (mapGet f (ascii "type")) = ascii "compaction_summary")
  | _ => false

/-- The trimmed summary an input item contributes to the `instructions`
block: `none` for non-compaction items, failed decryptions and summaries
that trim to empty. -/
def itemSummary (decrypt : GoStr → Except GoStr GoStr) (item : JSON) : Option GoStr :=
  match item with
  | .obj f =>
      if isCompactionObjB (.obj f) then
        match decrypt (goTrimSpace (asString (mapGet f (ascii "encrypted_content")))) with
        | .ok s => if goTrimSpace s = [] then none else some (goTrimSpace s)
        | .error _ => none
      else none
  | _ => none

/-- A toy lawful AEAD used to instantiate codec theorems: plaintext plus a
one-byte key/nonce tag. -/
def toyTag (k n : List Nat) : Nat := (k.sum + n.sum) % 256

/-- The toy AEAD scheme. -/
def toyAEAD : AEADScheme where
  nonceSize := 12
  sealWith := fun k n p => p ++ [toyTag k n]
  aeadOpen := fun k n c =>
    if c.getLast? = some (toyTag k n) then some c.dropLast else none

/-- Concrete decryptor used in witnesses: always returns `"SUM"`. -/
def decSUM : GoStr → Except GoStr GoStr := fun _ => .ok (ascii "SUM")

/-- Concrete request document with a single compaction item. -/
def docC5 : GoMap :=
  [(ascii "input", .arr [.obj [(ascii "type", .str (ascii "compaction")),
                               (ascii "encrypted_content", .str (ascii "TOK"))]])]

/-- As `docC5` but with pre-existing `instructions` text ending in a newline. -/
def docC5b : GoMap :=
  (ascii "instructions", .str (ascii "pre\n")) :: docC5

/-! ### Helper lemmas -/

/-! ### Claim theorems -/

/-- Decryptor that rejects every payload, for the C2 witness. -/
def decFail : GoStr → Except GoStr GoStr := fun _ => .error (ascii "auth")

/-- Decryptor returning a whitespace-only summary, for the C10 witness. -/
def decWS : GoStr → Except GoStr GoStr := fun _ => .ok (ascii "  ")

/-- The `instructions` text after a successful expansion: the block of
collected summaries, appended after the whitespace-trimmed pre-existing
instructions text when there is one. -/
def instructionsAfter (decrypt : GoStr → Except GoStr GoStr) (reqBody : GoMap)
    (input : List JSON) : GoStr :=
  let block := compactionBlockHeader ++
    (ascii "\n\n").intercalate (input.filterMap (itemSummary decrypt))
  let existing := goTrimSpace (asString (mapGet reqBody (ascii "instructions")))
  if existing = [] then block else existing ++ ascii "\n\n" ++ block

/-! ### Theorems -/

theorem b64Index_b64Char : ∀ s : Fin 64, b64Index (b64Char s.val) = some s.val := by decide

theorem b64Char_ne_pad : ∀ s : Fin 64, b64Char s.val ≠ 61 := by decide

theorem b64Char_not_space : ∀ s : Fin 64, isGoSpace (b64Char s.val) = false := by decide

theorem b64Index_of_lt (s : Nat) (h : s < 64) : b64Index (b64Char s) = some s :=
  b64Index_b64Char ⟨s, h⟩

theorem b64Char_ne_pad_of (s : Nat) (h : s < 64) : b64Char s ≠ 61 :=
  b64Char_ne_pad ⟨s, h⟩

/-- Decoding inverts encoding on genuine byte lists. -/
theorem base64Decode_encode (bs : List Nat) (h : ∀ b ∈ bs, b < 256) :
    base64Decode (base64Encode bs) = some bs := by
  induction bs using base64Encode.induct with
  | case1 => rfl
  | case2 b0 =>
      have hb0 : b0 < 256 := h b0 (by simp)
      simp only [base64Encode, base64Decode]
      rw [b64Index_of_lt _ (by omega), b64Index_of_lt _ (by omega)]
      simp only [Option.some_bind]
      simp
      omega
  | case3 b0 b1 =>
      have hb0 : b0 < 256 := h b0 (by simp)
      have hb1 : b1 < 256 := h b1 (by simp)
      simp only [base64Encode, base64Decode]
      rw [b64Index_of_lt _ (by omega : b0 / 4 < 64),
          b64Index_of_lt _ (by omega : b0 % 4 * 16 + b1 / 16 < 64)]
      simp only [Option.some_bind]
      rw [if_neg (b64Char_ne_pad_of _ (by omega : b1 % 16 * 4 < 64))]
      rw [b64Index_of_lt _ (by omega : b1 % 16 * 4 < 64)]
      simp only [Option.some_bind]
      simp
      omega
  | case4 b0 b1 b2 rest ih =>
      have hb0 : b0 < 256 := h b0 (by simp)
      have hb1 : b1 < 256 := h b1 (by simp)
      have hb2 : b2 < 256 := h b2 (by simp)
      have hrest : ∀ b ∈ rest, b < 256 := fun b hb => h b (by simp [hb])
      simp only [base64Encode, base64Decode]
      rw [b64Index_of_lt _ (by omega : b0 / 4 < 64),
          b64Index_of_lt _ (by omega : b0 % 4 * 16 + b1 / 16 < 64)]
      simp only [Option.some_bind]
      rw [if_neg (b64Char_ne_pad_of _ (by omega : b1 % 16 * 4 + b2 / 64 < 64))]
      rw [b64Index_of_lt _ (by omega : b1 % 16 * 4 + b2 / 64 < 64)]
      simp only [Option.some_bind]
      rw [if_neg (b64Char_ne_pad_of _ (by omega : b2 % 64 < 64))]
      rw [b64Index_of_lt _ (by omega : b2 % 64 < 64)]
      simp only [Option.some_bind]
      rw [ih hrest]
      simp only [Option.map_some', Option.some.injEq, List.cons.injEq]
      refine ⟨by omega, by omega, by omega, trivial⟩

/-- Encoded output never contains whitespace bytes. -/
theorem base64Encode_not_space (bs : List Nat) (h : ∀ b ∈ bs, b < 256) :
    ∀ c ∈ base64Encode bs, isGoSpace c = false := by
  induction bs using base64Encode.induct with
  | case1 => intro c hc; simp [base64Encode] at hc
  | case2 b0 =>
      have hb0 : b0 < 256 := h b0 (by simp)
      intro c hc
      simp only [base64Encode, List.mem_cons, List.not_mem_nil, or_false] at hc
      rcases hc with rfl | rfl | rfl | rfl
      · exact b64Char_not_space ⟨b0 / 4, by omega⟩
      · exact b64Char_not_space ⟨b0 % 4 * 16, by omega⟩
      · rfl
      · rfl
  | case3 b0 b1 =>
      have hb0 : b0 < 256 := h b0 (by simp)
      have hb1 : b1 < 256 := h b1 (by simp)
      intro c hc
      simp only [base64Encode, List.mem_cons, List.not_mem_nil, or_false] at hc
      rcases hc with rfl | rfl | rfl | rfl
      · exact b64Char_not_space ⟨b0 / 4, by omega⟩
      · exact b64Char_not_space ⟨b0 % 4 * 16 + b1 / 16, by omega⟩
      · exact b64Char_not_space ⟨b1 % 16 * 4, by omega⟩
      · rfl
  | case4 b0 b1 b2 rest ih =>
      have hb0 : b0 < 256 := h b0 (by simp)
      have hb1 : b1 < 256 := h b1 (by simp)
      have hb2 : b2 < 256 := h b2 (by simp)
      have hrest : ∀ b ∈ rest, b < 256 := fun b hb => h b (by simp [hb])
      intro c hc
      simp only [base64Encode, List.mem_cons] at hc
      rcases hc with rfl | rfl | rfl | rfl | hc
      · exact b64Char_not_space ⟨b0 / 4, by omega⟩
      · exact b64Char_not_space ⟨b0 % 4 * 16 + b1 / 16, by omega⟩
      · exact b64Char_not_space ⟨b1 % 16 * 4 + b2 / 64, by omega⟩
      · exact b64Char_not_space ⟨b2 % 64, by omega⟩
      · exact ih hrest c hc

/-- Dropping while a predicate holds is the identity when no element satisfies it. -/
theorem dropWhile_eq_self_of_none (p : Nat → Bool) (l : List Nat)
    (h : ∀ c ∈ l, p c = false) : l.dropWhile p = l := by
  cases l with
  | nil => rfl
  | cons a as => simp [List.dropWhile_cons, h a (by simp)]

/-- Trimming is the identity on strings without whitespace bytes. -/
theorem goTrimSpace_eq_self (s : GoStr) (h : ∀ c ∈ s, isGoSpace c = false) :
    goTrimSpace s = s := by
  unfold goTrimSpace
  rw [dropWhile_eq_self_of_none _ s h,
      dropWhile_eq_self_of_none _ s.reverse (fun c hc => h c (List.mem_reverse.mp hc)),
      List.reverse_reverse]

/-- Known-answer check: SHA-256 of the three bytes `"abc"`. -/
theorem sha256_abc :
    sha256 (ascii "abc") =
      [0xba, 0x78, 0x16, 0xbf, 0x8f, 0x01, 0xcf, 0xea,
       0x41, 0x41, 0x40, 0xde, 0x5d, 0xae, 0x22, 0x23,
       0xb0, 0x03, 0x61, 0xa3, 0x96, 0x17, 0x7a, 0x9c,
       0xb4, 0x10, 0xff, 0x61, 0xf2, 0x00, 0x15, 0xad] := by
  decide

/-- Under any configured key source, `compactionKey` does not depend on the
clock, so encrypt and decrypt in the same process derive the same key. -/
theorem compactionKey_time_independent (env totpKey jwtSecret now now2 : GoStr)
    (h : keyConfigured env totpKey jwtSecret) :
    compactionKey env totpKey jwtSecret now = compactionKey env totpKey jwtSecret now2 := by
  unfold compactionKey
  rcases h with h | h | h
  · simp [h]
  · by_cases he : goTrimSpace env = [] <;> simp [he, h]
  · by_cases he : goTrimSpace env = [] <;>
      by_cases ht : goTrimSpace totpKey = [] <;> simp [he, ht, h]

/-- Bytes of the trimmed string are bytes of the string. -/
theorem mem_goTrimSpace {s : GoStr} {c : Nat} (hc : c ∈ goTrimSpace s) : c ∈ s := by
  unfold goTrimSpace at hc
  rw [List.mem_reverse] at hc
  have h1 := List.dropWhile_subset (p := isGoSpace)
      (l := (s.dropWhile isGoSpace).reverse) hc
  rw [List.mem_reverse] at h1
  exact List.dropWhile_subset (p := isGoSpace) (l := s) h1

/-- The toy AEAD satisfies the AEAD laws. -/
theorem toyAEAD_lawful : LawfulAEAD toyAEAD := by
  constructor
  · intro k n p
    simp [toyAEAD, AEADScheme.aeadOpen]
  · intro k n p hp b hb
    simp only [toyAEAD] at hb
    rcases List.mem_append.mp hb with h | h
    · exact hp b h
    · simp only [List.mem_singleton] at h
      subst h
      exact Nat.mod_lt _ (by omega)

/-- C3: `compactionKey` tries sources in fixed order: a valid
`SUB2API_COMPACTION_KEY` override wins outright; a present but invalid
override is an error regardless of the lower-priority sources; otherwise a
valid configured TOTP encryption key wins; otherwise a non-empty JWT secret
yields SHA-256 of the (trimmed) secret. -/
theorem compactionKey_priority (env totpKey jwtSecret now : GoStr) :
    (goTrimSpace env ≠ [] → ∀ k, parse32ByteKey (goTrimSpace env) = some k →
        compactionKey env totpKey jwtSecret now = .ok k) ∧
    (goTrimSpace env ≠ [] → parse32ByteKey (goTrimSpace env) = none →
        compactionKey env totpKey jwtSecret now =
          .error (ascii "invalid SUB2API_COMPACTION_KEY (expect 32-byte hex/base64)")) ∧
    (goTrimSpace env = [] → goTrimSpace totpKey ≠ [] →
        ∀ k, parse32ByteKey (goTrimSpace totpKey) = some k →
          compactionKey env totpKey jwtSecret now = .ok k) ∧
    (goTrimSpace env = [] → goTrimSpace totpKey = [] → goTrimSpace jwtSecret ≠ [] →
        compactionKey env totpKey jwtSecret now = .ok (sha256 (goTrimSpace jwtSecret))) := by
  refine ⟨?_, ?_, ?_, ?_⟩
  · intro h1 k h2
    simp [compactionKey, h1, h2]
  · intro h1 h2
    simp [compactionKey, h1, h2]
  · intro h1 h2 k h3
    simp [compactionKey, h1, h2, h3]
  · intro h1 h2 h3
    simp [compactionKey, h1, h2, h3]

/-- Witness for C3 at concrete configurations: a valid 64-hex-char override
(`'6'` repeated) beats a configured TOTP key, and an invalid override is an
error even though a valid TOTP key is configured. -/
theorem compactionKey_priority_witness :
    compactionKey (List.replicate 64 54) (List.replicate 64 55) (ascii "jwt") (ascii "now") =
      .ok (List.replicate 32 102) ∧
    compactionKey (ascii "nothex!") (List.replicate 64 55) (ascii "jwt") (ascii "now") =
      .error (ascii "invalid SUB2API_COMPACTION_KEY (expect 32-byte hex/base64)") := by
  constructor
  · exact (compactionKey_priority (List.replicate 64 54) (List.replicate 64 55)
      (ascii "jwt") (ascii "now")).1 (by decide) (List.replicate 32 102) (by decide)
  · exact (compactionKey_priority (ascii "nothex!") (List.replicate 64 55)
      (ascii "jwt") (ascii "now")).2.1 (by decide) (by decide)

/-- C6 (refuting the claimed stability): with no environment override, no TOTP
key and no JWT secret, `compactionKey` re-derives the "per-process" ephemeral
key from the current clock reading on every call, so two calls in the same
process observing different nanosecond timestamps return different keys. -/
theorem compactionKey_ephemeral_not_stable :
    compactionKey [] [] [] (ascii "2024-01-01T00:00:00.000000001Z") ≠
    compactionKey [] [] [] (ascii "2024-01-01T00:00:00.000000002Z") := by decide

/-- C4: on a non-2xx upstream status, a failover-eligible code yields an
`UpstreamFailoverError` carrying exactly that status and the body capped by
`io.LimitReader(·, 2<<20)` (2 MiB); a non-eligible code goes through the
shared error-mapping path and is never a failover error. -/
theorem forward_failover_classification (shouldFailover : Nat → Bool)
    (status : Nat) (body : List Nat) (hs : status < 200 ∨ 300 ≤ status) :
    (shouldFailover status = true →
        forwardUpstreamOutcome shouldFailover status body =
          .failover status (body.take (2 <<< 20)) ∧
        (body.take (2 <<< 20)).length ≤ 2 <<< 20) ∧
    (shouldFailover status = false →
        forwardUpstreamOutcome shouldFailover status body = .terminal ∧
        ∀ sc b, forwardUpstreamOutcome shouldFailover status body ≠ .failover sc b) := by
  constructor
  · intro hp
    refine ⟨?_, ?_⟩
    · simp [forwardUpstreamOutcome, hs, hp]
    · rw [List.length_take]
      exact min_le_left _ _
  · intro hp
    have hout : forwardUpstreamOutcome shouldFailover status body = .terminal := by
      simp [forwardUpstreamOutcome, hs, hp]
    exact ⟨hout, fun sc b => by rw [hout]; intro hcontr; cases hcontr⟩

/-- Witness for C4: a 429 with an eligible predicate is a failover error with
the same status and body; a 400 with the same predicate is terminal. -/
theorem forward_failover_classification_witness :
    forwardUpstreamOutcome (fun s => s == 429) 429 [7, 8] = .failover 429 [7, 8] ∧
    forwardUpstreamOutcome (fun s => s == 429) 400 [7, 8] = .terminal := by
  constructor
  · exact ((forward_failover_classification (fun s => s == 429) 429 [7, 8]
      (by omega)).1 (by decide)).1
  · exact ((forward_failover_classification (fun s => s == 429) 400 [7, 8]
      (by omega)).2 (by decide)).1

/-- C7: when the upstream body is not tagged `response.compaction` and no
assistant `output_text` with non-whitespace content is extractable, `Compact`
answers 502 with the upstream-error payload, which is not a 4xx. -/
theorem compact_missing_summary_gateway_error
    (encrypt : GoStr → Except GoStr GoStr) (reqInput : Option JSON) (raw : Option JSON)
    (hprobe : goTrimSpace (probeObjectTag raw) ≠ ascii "response.compaction")
    (hsum : goTrimSpace (extractAssistantOutputText raw) = []) :
    compactFinish encrypt reqInput raw = (502, .missingSummary) ∧
    ¬ (400 ≤ (compactFinish encrypt reqInput raw).1 ∧
       (compactFinish encrypt reqInput raw).1 < 500) := by
  have hmain : compactFinish encrypt reqInput raw = (502, .missingSummary) := by
    unfold compactFinish
    rw [if_neg hprobe]
    simp [hsum]
  refine ⟨hmain, ?_⟩
  rw [hmain]
  omega

/-- Witness for C7: a non-compaction upstream object with no output items. -/
theorem compact_missing_summary_gateway_error_witness :
    compactFinish (fun s => .ok s) none
        (some (.obj [(ascii "object", .str (ascii "response.done"))])) =
      (502, .missingSummary) :=
  (compact_missing_summary_gateway_error (fun s => .ok s) none
    (some (.obj [(ascii "object", .str (ascii "response.done"))]))
    (by decide) (by decide)).1

/-- C8: once a fault is stored in the per-request slot, every further
`SetOpsStreamFault` call leaves the stored fault unchanged, whatever faults
are passed. -/
theorem setOpsStreamFault_first_write_wins (f : OpsStreamFault)
    (gs : List OpsStreamFault) :
    List.foldl setOpsStreamFault (some f) gs = some f := by
  induction gs with
  | nil => rfl
  | cons g gs ih => simpa [setOpsStreamFault] using ih

/-- C9: `upstreamReadTracker.Read` forwards the wrapped result unchanged;
a read of at least one byte stores the clock into `lastReadAt` and adds the
count to `bytesRead`; a zero-byte read (e.g. an EOF probe) changes neither
cell; in the 5 / 0 / 3 scenario the timestamp moves only on the two non-zero
reads and the counter totals 8. -/
theorem trackerRead_contract (res : Nat × Option GoStr) (now : Int)
    (cells : TrackerCells) :
    (trackerRead res now cells).1 = res ∧
    (1 ≤ res.1 →
      (trackerRead res now cells).2 =
        { lastReadAt := cells.lastReadAt.map (fun _ => now),
          bytesRead := cells.bytesRead.map (fun b => b + res.1) }) ∧
    (res.1 = 0 → (trackerRead res now cells).2 = cells) ∧
    (∀ (t1 t2 t3 l0 : Int) (e1 e2 e3 : Option GoStr),
      (trackerRead (5, e1) t1 ⟨some l0, some 0⟩).2.lastReadAt = some t1 ∧
      (trackerRead (0, e2) t2 (trackerRead (5, e1) t1 ⟨some l0, some 0⟩).2).2 =
        (trackerRead (5, e1) t1 ⟨some l0, some 0⟩).2 ∧
      (trackerRead (3, e3) t3
          (trackerRead (0, e2) t2 (trackerRead (5, e1) t1 ⟨some l0, some 0⟩).2).2).2 =
        ⟨some t3, some 8⟩) := by
  refine ⟨?_, ?_, ?_, ?_⟩
  · unfold trackerRead
    split <;> rfl
  · intro h
    unfold trackerRead
    rw [if_pos (by omega)]
  · intro h
    unfold trackerRead
    rw [if_neg (by omega)]
  · intro t1 t2 t3 l0 e1 e2 e3
    refine ⟨rfl, rfl, ?_⟩
    show TrackerCells.mk (some t3) (some (0 + (5 : Nat) + (3 : Nat))) = ⟨some t3, some 8⟩
    norm_num

/-- Witness for C9: one concrete 5-byte read updates both cells, one 0-byte
read leaves them alone. -/
theorem trackerRead_contract_witness :
    (trackerRead (5, some (ascii "EOF")) 7 ⟨some 3, some 0⟩).2 =
      { lastReadAt := some 7, bytesRead := some 5 } ∧
    (trackerRead (0, none) 9 ⟨some 7, some 5⟩).2 = ⟨some 7, some 5⟩ := by
  constructor
  · have h := (trackerRead_contract (5, some (ascii "EOF")) 7 ⟨some 3, some 0⟩).2.1 (by omega)
    simpa using h
  · exact (trackerRead_contract (0, none) 9 ⟨some 7, some 5⟩).2.2.1 rfl

/-- C1: under any configured key source, decrypting the token produced by
encrypting a summary succeeds and yields exactly the trimmed summary, for any
lawful AEAD, any correctly-sized nonce, and independent clock readings at the
two calls. -/
theorem compaction_codec_roundtrip (A : AEADScheme) (hA : LawfulAEAD A)
    (env totpKey jwtSecret tEnc tDec : GoStr)
    (hcfg : keyConfigured env totpKey jwtSecret)
    (nonce : List Nat) (hn : nonce.length = A.nonceSize)
    (hnb : ∀ b ∈ nonce, b < 256)
    (text : GoStr) (htext : ∀ b ∈ text, b < 256) (token : GoStr)
    (henc : encryptCompactionSummary A env totpKey jwtSecret tEnc nonce text = .ok token) :
    decryptCompactionSummary A env totpKey jwtSecret tDec token = .ok (goTrimSpace text) := by
  obtain ⟨key, hkey⟩ : ∃ key, compactionKey env totpKey jwtSecret tEnc = .ok key := by
    unfold encryptCompactionSummary at henc
    cases hk : compactionKey env totpKey jwtSecret tEnc with
    | error e => rw [hk] at henc; cases henc
    | ok k => exact ⟨k, rfl⟩
  have hkey2 : compactionKey env totpKey jwtSecret tDec = .ok key := by
    rw [compactionKey_time_independent env totpKey jwtSecret tDec tEnc hcfg]
    exact hkey
  have htok : token = base64Encode (nonce ++ A.sealWith key nonce (goTrimSpace text)) := by
    unfold encryptCompactionSummary at henc
    rw [hkey] at henc
    injection henc with h
    exact h.symm
  have hbytes : ∀ b ∈ nonce ++ A.sealWith key nonce (goTrimSpace text), b < 256 := by
    intro b hb
    rcases List.mem_append.mp hb with h | h
    · exact hnb b h
    · exact hA.seal_bytes key nonce (goTrimSpace text)
        (fun c hc => htext c (mem_goTrimSpace hc)) b h
  unfold decryptCompactionSummary
  rw [hkey2, htok,
      goTrimSpace_eq_self _ (base64Encode_not_space _ hbytes),
      base64Decode_encode _ hbytes]
  have hlen : ¬ (nonce ++ A.sealWith key nonce (goTrimSpace text)).length < A.nonceSize := by
    rw [List.length_append, hn]
    omega
  simp only [hlen, reduceIte, List.take_left' hn, List.drop_left' hn, hA.open_seal]

/-- Witness for C1: a concrete round-trip with the toy AEAD, a 64-hex-char
environment key, and a summary that needs trimming. -/
theorem compaction_codec_roundtrip_witness :
    decryptCompactionSummary toyAEAD (List.replicate 64 54) [] [] (ascii "t2")
        (base64Encode (List.replicate 12 1 ++
          toyAEAD.sealWith (List.replicate 32 102) (List.replicate 12 1) (ascii "hi"))) =
      .ok (ascii "hi") :=
  compaction_codec_roundtrip toyAEAD toyAEAD_lawful (List.replicate 64 54) [] []
    (ascii "t1") (ascii "t2") (Or.inl (by decide)) (List.replicate 12 1) (by decide)
    (by decide) (ascii " hi ") (by decide) _ rfl

/-- A bad compaction item anywhere in the list makes the item loop fail. -/
theorem expandLoop_error_of_bad (decrypt : GoStr → Except GoStr GoStr)
    (items : List JSON) (item : JSON) (hmem : item ∈ items)
    (hbad : badCompactionItem decrypt item) :
    ∃ e, expandLoop decrypt items = .error e := by
  induction items with
  | nil => cases hmem
  | cons hd tl ih =>
      rcases List.mem_cons.mp hmem with rfl | hmem2
      · obtain ⟨f, rfl, htype, hbad2⟩ := hbad
        simp only [expandLoop]
        rw [if_pos htype]
        by_cases henc : goTrimSpace (asString (mapGet f (ascii "encrypted_content"))) = []
        · rw [if_pos henc]
          exact ⟨_, rfl⟩
        · rw [if_neg henc]
          rcases hbad2 with h | ⟨e, he⟩
          · exact absurd h henc
          · rw [he]
            exact ⟨_, rfl⟩
      · obtain ⟨e, he⟩ := ih hmem2
        cases hd with
        | obj f =>
            simp only [expandLoop]
            by_cases htype : (asString (mapGet f (ascii "type")) = ascii "compaction" ∨
                asString (mapGet f (ascii "type")) = ascii "compaction_summary")
            · rw [if_pos htype]
              by_cases henc : goTrimSpace (asString (mapGet f (ascii "encrypted_content"))) = []
              · rw [if_pos henc]
                exact ⟨_, rfl⟩
              · rw [if_neg henc]
                cases hdec : decrypt (goTrimSpace (asString (mapGet f (ascii "encrypted_content")))) with
                | error e2 => exact ⟨_, rfl⟩
                | ok s =>
                    simp only [he]
                    exact ⟨e, rfl⟩
            · rw [if_neg htype]
              simp only [he]
              exact ⟨e, rfl⟩
        | null => simp only [expandLoop, he]; exact ⟨e, rfl⟩
        | bool b => simp only [expandLoop, he]; exact ⟨e, rfl⟩
        | num n => simp only [expandLoop, he]; exact ⟨e, rfl⟩
        | str s => simp only [expandLoop, he]; exact ⟨e, rfl⟩
        | arr xs => simp only [expandLoop, he]; exact ⟨e, rfl⟩

/-- C2: if any compaction item in the input list has an absent/empty
`encrypted_content` or a payload the decryptor rejects, the expansion returns
an error, reports `changed = false`, and leaves the document exactly as it
was. -/
theorem expandCompaction_atomic_on_failure (decrypt : GoStr → Except GoStr GoStr)
    (reqBody : GoMap) (input : List JSON) (item : JSON)
    (hin : mapGet reqBody (ascii "input") = some (.arr input))
    (hmem : item ∈ input) (hbad : badCompactionItem decrypt item) :
    (expandCompactionIntoInstructions decrypt reqBody).1 = reqBody ∧
    (expandCompactionIntoInstructions decrypt reqBody).2.1 = false ∧
    (expandCompactionIntoInstructions decrypt reqBody).2.2 ≠ none := by
  obtain ⟨e, he⟩ := expandLoop_error_of_bad decrypt input item hmem hbad
  have hne : input.isEmpty = false := by
    cases input
    · cases hmem
    · rfl
  simp [expandCompactionIntoInstructions, hin, hne, he]

/-- Witness for C2: on a document whose only input item is a compaction item
with an undecryptable payload, nothing changes and an error is reported. -/
theorem expandCompaction_atomic_on_failure_witness :
    (expandCompactionIntoInstructions decFail docC5).1 = docC5 ∧
    (expandCompactionIntoInstructions decFail docC5).2.1 = false ∧
    (expandCompactionIntoInstructions decFail docC5).2.2 ≠ none :=
  expandCompaction_atomic_on_failure decFail docC5
    [.obj [(ascii "type", .str (ascii "compaction")),
           (ascii "encrypted_content", .str (ascii "TOK"))]]
    (.obj [(ascii "type", .str (ascii "compaction")),
           (ascii "encrypted_content", .str (ascii "TOK"))])
    rfl (List.mem_singleton.mpr rfl)
    ⟨[(ascii "type", .str (ascii "compaction")),
      (ascii "encrypted_content", .str (ascii "TOK"))],
     rfl, Or.inl (by decide), Or.inr ⟨ascii "auth", rfl⟩⟩

/-- Mapping over a successful `Except` applies the function. -/
theorem except_map_ok {e a b : Type} (f : a → b) (x : a) :
    Except.map f (Except.ok x : Except e a) = .ok (f x) := rfl

/-- If every compaction item decrypts but every summary trims to empty, the
item loop succeeds with no collected summaries. -/
theorem expandLoop_ok_all_empty (decrypt : GoStr → Except GoStr GoStr)
    (items : List JSON)
    (hgood : ∀ item ∈ items, ∀ f, item = .obj f →
        (asString (mapGet f (ascii "type")) = ascii "compaction" ∨
         asString (mapGet f (ascii "type")) = ascii "compaction_summary") →
        goTrimSpace (asString (mapGet f (ascii "encrypted_content"))) ≠ [] ∧
        ∃ s, decrypt (goTrimSpace (asString (mapGet f (ascii "encrypted_content")))) = .ok s ∧
             goTrimSpace s = []) :
    ∃ newInput, expandLoop decrypt items = .ok ([], newInput) := by
  induction items with
  | nil => exact ⟨[], rfl⟩
  | cons hd tl ih =>
      obtain ⟨ni, hni⟩ := ih (fun item hm => hgood item (List.mem_cons_of_mem _ hm))
      cases hd with
      | obj f =>
          by_cases htype : (asString (mapGet f (ascii "type")) = ascii "compaction" ∨
              asString (mapGet f (ascii "type")) = ascii "compaction_summary")
          · obtain ⟨henc, s, hs, hse⟩ :=
              hgood (.obj f) (List.mem_cons_self _ _) f rfl htype
            refine ⟨ni, ?_⟩
            simp only [expandLoop]
            rw [if_pos htype, if_neg henc, hs]
            simp [hni, hse, except_map_ok]
          · refine ⟨.obj f :: ni, ?_⟩
            simp only [expandLoop]
            rw [if_neg htype]
            simp [hni, except_map_ok]
      | null => exact ⟨.null :: ni, by simp [expandLoop, hni, except_map_ok]⟩
      | bool b => exact ⟨.bool b :: ni, by simp [expandLoop, hni, except_map_ok]⟩
      | num n => exact ⟨.num n :: ni, by simp [expandLoop, hni, except_map_ok]⟩
      | str s => exact ⟨.str s :: ni, by simp [expandLoop, hni, except_map_ok]⟩
      | arr xs => exact ⟨.arr xs :: ni, by simp [expandLoop, hni, except_map_ok]⟩

/-- C10: when every compaction item in the input decrypts successfully but
every decrypted summary is whitespace-only, the expansion reports
`changed = false` with no error and leaves the document untouched: the
compaction items stay in the input list and `instructions` is unchanged. -/
theorem expandCompaction_whitespace_only_noop (decrypt : GoStr → Except GoStr GoStr)
    (reqBody : GoMap) (input : List JSON)
    (hin : mapGet reqBody (ascii "input") = some (.arr input))
    (hgood : ∀ item ∈ input, ∀ f, item = .obj f →
        (asString (mapGet f (ascii "type")) = ascii "compaction" ∨
         asString (mapGet f (ascii "type")) = ascii "compaction_summary") →
        goTrimSpace (asString (mapGet f (ascii "encrypted_content"))) ≠ [] ∧
        ∃ s, decrypt (goTrimSpace (asString (mapGet f (ascii "encrypted_content")))) = .ok s ∧
             goTrimSpace s = []) :
    expandCompactionIntoInstructions decrypt reqBody = (reqBody, false, none) := by
  obtain ⟨ni, hni⟩ := expandLoop_ok_all_empty decrypt input hgood
  by_cases hemp : input.isEmpty = true
  · simp [expandCompactionIntoInstructions, hin, hemp]
  · simp [expandCompactionIntoInstructions, hin, hemp, hni]

/-- Witness for C10: a document whose only input item is a compaction item
decrypting to two spaces stays exactly as it was. -/
theorem expandCompaction_whitespace_only_noop_witness :
    expandCompactionIntoInstructions decWS docC5 = (docC5, false, none) :=
  expandCompaction_whitespace_only_noop decWS docC5
    [.obj [(ascii "type", .str (ascii "compaction")),
           (ascii "encrypted_content", .str (ascii "TOK"))]]
    rfl
    (by
      intro item hm f heq htype
      rcases List.mem_singleton.mp hm with rfl
      cases heq
      exact ⟨by decide, ascii "  ", rfl, by decide⟩)

/-- Setting one key does not change lookups of a different key. -/
theorem mapGet_mapSet_ne (m : GoMap) (k k2 : GoStr) (v : JSON) (h : k ≠ k2) :
    mapGet (mapSet m k v) k2 = mapGet m k2 := by
  induction m with
  | nil =>
      simp only [mapSet, mapGet]
      rw [if_neg h]
  | cons p rest ih =>
      obtain ⟨pk, pv⟩ := p
      by_cases hk : pk = k
      · subst hk
        simp only [mapSet, if_pos rfl]
        by_cases hk2 : pk = k2
        · exact absurd hk2 h
        · simp [mapGet, hk2]
      · simp only [mapSet, if_neg hk]
        by_cases hk2 : pk = k2
        · simp [mapGet, hk2]
        · simp [mapGet, hk2, ih]

/-- When every compaction item decrypts, the item loop returns the summaries
and the filtered item list described by `itemSummary` and `isCompactionObjB`. -/
theorem expandLoop_ok_of_good (decrypt : GoStr → Except GoStr GoStr)
    (items : List JSON)
    (hgood : ∀ item ∈ items, ∀ f, item = .obj f →
        (asString (mapGet f (ascii "type")) = ascii "compaction" ∨
         asString (mapGet f (ascii "type")) = ascii "compaction_summary") →
        goTrimSpace (asString (mapGet f (ascii "encrypted_content"))) ≠ [] ∧
        ∃ s, decrypt (goTrimSpace (asString (mapGet f (ascii "encrypted_content")))) = .ok s) :
    expandLoop decrypt items =
      .ok (items.filterMap (itemSummary decrypt),
           items.filter (fun it => !isCompactionObjB it)) := by
  induction items with
  | nil => rfl
  | cons hd tl ih =>
      have htl := ih (fun item hm => hgood item (List.mem_cons_of_mem _ hm))
      cases hd with
      | obj f =>
          by_cases htype : (asString (mapGet f (ascii "type")) = ascii "compaction" ∨
              asString (mapGet f (ascii "type")) = ascii "compaction_summary")
          · obtain ⟨henc, s, hs⟩ := hgood (.obj f) (List.mem_cons_self _ _) f rfl htype
            have hobj : isCompactionObjB (.obj f) = true := by
              simp [isCompactionObjB, htype]
            simp only [expandLoop]
            rw [if_pos htype, if_neg henc, hs, htl]
            simp only [except_map_ok]
            simp only [List.filterMap_cons, List.filter_cons, itemSummary, hobj, hs]
            by_cases hse : goTrimSpace s = []
            · simp [hse]
            · simp [hse]
          · have hobj : isCompactionObjB (.obj f) = false := by
              simp [isCompactionObjB]
              tauto
            simp only [expandLoop]
            rw [if_neg htype, htl]
            simp only [except_map_ok]
            simp [List.filterMap_cons, List.filter_cons, itemSummary, hobj]
      | null => simp [expandLoop, htl, except_map_ok, itemSummary, isCompactionObjB,
          List.filterMap_cons, List.filter_cons]
      | bool b => simp [expandLoop, htl, except_map_ok, itemSummary, isCompactionObjB,
          List.filterMap_cons, List.filter_cons]
      | num n => simp [expandLoop, htl, except_map_ok, itemSummary, isCompactionObjB,
          List.filterMap_cons, List.filter_cons]
      | str s => simp [expandLoop, htl, except_map_ok, itemSummary, isCompactionObjB,
          List.filterMap_cons, List.filter_cons]
      | arr xs => simp [expandLoop, htl, except_map_ok, itemSummary, isCompactionObjB,
          List.filterMap_cons, List.filter_cons]

/-- C5 (amended): when every compaction item decrypts and at least one
summary is non-empty after trimming, the expansion drops exactly the
compaction items (preserving the relative order of everything else), and sets
`instructions` to the code's block header
`"Conversation history summary (from /v1/responses/compact):\n"` followed by
the trimmed summaries in encounter order joined by blank lines, appended
after the whitespace-trimmed pre-existing instructions text (or set directly
when none), returning `changed = true` and no error. -/
theorem expandCompaction_result_shape (decrypt : GoStr → Except GoStr GoStr)
    (reqBody : GoMap) (input : List JSON)
    (hin : mapGet reqBody (ascii "input") = some (.arr input))
    (hgood : ∀ item ∈ input, ∀ f, item = .obj f →
        (asString (mapGet f (ascii "type")) = ascii "compaction" ∨
         asString (mapGet f (ascii "type")) = ascii "compaction_summary") →
        goTrimSpace (asString (mapGet f (ascii "encrypted_content"))) ≠ [] ∧
        ∃ s, decrypt (goTrimSpace (asString (mapGet f (ascii "encrypted_content")))) = .ok s)
    (hnonempty : input.filterMap (itemSummary decrypt) ≠ []) :
    expandCompactionIntoInstructions decrypt reqBody =
      (mapSet (mapSet reqBody (ascii "input")
          (.arr (input.filter (fun it => !isCompactionObjB it))))
         (ascii "instructions") (.str (instructionsAfter decrypt reqBody input)),
       true, none) := by
  have htl := expandLoop_ok_of_good decrypt input hgood
  have hne : input.isEmpty = false := by
    cases input with
    | nil => simp at hnonempty
    | cons a l => rfl
  simp only [expandCompactionIntoInstructions, hin, hne, htl, Bool.false_eq_true,
    if_false]
  rw [if_neg hnonempty]
  rw [mapGet_mapSet_ne reqBody (ascii "input") (ascii "instructions") _ (by decide)]
  unfold instructionsAfter
  by_cases hex : goTrimSpace (asString (mapGet reqBody (ascii "instructions"))) = []
  · simp [hex]
  · simp [hex]

/-- C5 counterexample: the claim's literal block header
`"Conversation history summary (from the compaction endpoint):"` is not what
the code writes (the code writes
`"Conversation history summary (from /v1/responses/compact):"`), and a
pre-existing `instructions` text is whitespace-trimmed before the block is
appended, so the claimed untrimmed concatenation also differs. -/
theorem expandCompaction_header_counterexample :
    (expandCompactionIntoInstructions decSUM docC5).2.1 = true ∧
    asString (mapGet (expandCompactionIntoInstructions decSUM docC5).1
        (ascii "instructions")) =
      ascii "Conversation history summary (from /v1/responses/compact):\nSUM" ∧
    asString (mapGet (expandCompactionIntoInstructions decSUM docC5).1
        (ascii "instructions")) ≠
      ascii "Conversation history summary (from the compaction endpoint):\nSUM" ∧
    asString (mapGet (expandCompactionIntoInstructions decSUM docC5b).1
        (ascii "instructions")) =
      ascii "pre\n\nConversation history summary (from /v1/responses/compact):\nSUM" ∧
    asString (mapGet (expandCompactionIntoInstructions decSUM docC5b).1
        (ascii "instructions")) ≠
      ascii "pre\n" ++ ascii "\n\n" ++
        ascii "Conversation history summary (from /v1/responses/compact):\nSUM" := by
  decide

/-- Witness for the amended C5 at a concrete document: the compaction item is
dropped and `instructions` becomes the code's header plus the summary. -/
theorem expandCompaction_result_shape_witness :
    expandCompactionIntoInstructions decSUM docC5 =
      (mapSet (mapSet docC5 (ascii "input") (.arr []))
         (ascii "instructions")
         (.str (compactionBlockHeader ++ ascii "SUM")), true, none) := by
  have h := expandCompaction_result_shape decSUM docC5
    [.obj [(ascii "type", .str (ascii "compaction")),
           (ascii "encrypted_content", .str (ascii "TOK"))]]
    rfl
    (by
      intro item hm f heq htype
      rcases List.mem_singleton.mp hm with rfl
      cases heq
      exact ⟨by decide, ascii "SUM", rfl⟩)
    (by decide)
  exact h
